import Mathlib

/-!
Verification of the cache-and-coalescing layer of github-most-used-langs.

The development shallowly embeds the TypeScript sources:
  * `CacheManager` (src/cache.ts, the persistence-capable version also found
    in the unnamed source file): an in-memory keyed map of snapshots with
    TTL validity, in-flight markers, and an on-disk mirror;
  * the GET request handler (index.ts in the unnamed source file): the
    read-through / coalescing / stale-if-error decision path;
  * `DataScheduler.fetchAllUserData` and `stop` (src/scheduler.ts);
  * the rate-limit error helpers of src/github.ts.

JavaScript objects used as string-keyed dictionaries are embedded as
association lists; `Date.now()/1000` is an explicit `now : Nat` argument;
promises are explicit identifiers whose resolution is supplied as an
environment `Nat -> Except FetchError LanguageStats`.

The file is organised as definitions first (the embedding), then theorems.
-/

set_option autoImplicit false

namespace GithubLangs

/-- Association map embedding a JavaScript object used as a dictionary
(`Record<string, T>` in the sources). -/
abbrev AMap (κ : Type) (α : Type) : Type := List (κ × α)

namespace AMap

variable {κ α : Type} [DecidableEq κ]

/-- Empty dictionary, `{}` in the sources. -/
def empty {κ α : Type} : AMap κ α := []

/-- Property read `m[k]`, absent keys give `none` (JS `undefined`). -/
def find? : AMap κ α → κ → Option α
  | [], _ => none
  | (k', v) :: rest, k => if k' = k then some v else find? rest k

/-- Property write `m[k] = v`: overwrite in place if present, else append. -/
def insert : AMap κ α → κ → α → AMap κ α
  | [], k, v => [(k, v)]
  | (k', v') :: rest, k, v =>
    if k' = k then (k, v) :: rest else (k', v') :: insert rest k v

end AMap

/-- CacheEntry from src/types.ts: `{ generatedAt: number, data: T }`,
with `generatedAt` in unix seconds. The snapshot type is a parameter
because the cache treats the payload as an opaque value. -/
structure CacheEntry (α : Type) where
  generatedAt : Nat
  data : α
deriving Repr, DecidableEq

/-- Character sanitization in `getCacheFilePath`: the regex
`[^a-zA-Z0-9-_]` replaces every character outside that class with an
underscore. -/
def sanitizeChar (c : Char) : Char :=
  if c.isAlphanum || c = '-' || c = '_' then c else '_'

/-- Sanitized form of a cache key, `key.replace(/[^a-zA-Z0-9-_]/g, "_")`. -/
def sanitizeKey (key : String) : String :=
  String.mk (key.data.map sanitizeChar)

/-- File name used by `getCacheFilePath`, relative to the cache directory.
The `path.join` with the constant directory prefix is dropped from the
embedding: every disk operation of the class works inside that one
directory. -/
def cacheFileName (key : String) : String :=
  sanitizeKey key ++ ".json"

/-- JS `s.endsWith(suffix)`. -/
def strEndsWith (s suffix : String) : Bool :=
  decide (suffix.data <:+ s.data)

/-- JS `s.replace(pat, "")` with a string pattern: removal of the first
occurrence only. -/
def replaceFirst (s pat : List Char) : List Char :=
  match s with
  | [] => []
  | c :: rest =>
    if pat.isPrefixOf (c :: rest) then (c :: rest).drop pat.length
    else c :: replaceFirst rest pat

/-- Key reconstruction in `loadAllFromDisk`:
`file.replace(".json", "").replace(/_/g, "-")`. -/
def loadKeyOfFile (file : String) : String :=
  String.mk ((replaceFirst file.data ".json".data).map
    (fun c => if c = '_' then '-' else c))

/-- Key after a full persistence round trip: file-name sanitization on
save composed with key reconstruction on load. -/
def roundTripKey (key : String) : String :=
  loadKeyOfFile (cacheFileName key)

/-- On-disk state of the cache directory: file name to parsed CacheEntry.
JSON serialization is assumed faithful; a write error (caught and only
logged by `saveToDisk`) is not modelled, and a corrupt record (skipped
and logged by the load path) is outside the represented states. -/
abbrev Disk (α : Type) := AMap String (CacheEntry α)

/-- Observable outcome of `saveToDisk`: either a file was written, or the
entry was missing and only a warning was logged. -/
inductive SaveOutcome where
  | saved (fileName : String)
  | warnedNoEntry
deriving Repr, DecidableEq

/-- CacheManager state (src/cache.ts, persistence-capable version).
`inFlight` values of `none` embed the JS `null` left by `clearInFlight`;
a `some pid` is a live promise identifier. -/
structure CacheManager (α : Type) where
  cache : AMap String (CacheEntry α)
  inFlight : AMap String (Option Nat)
  ttlSeconds : Nat
  cacheDir : String
deriving Repr, DecidableEq

namespace CacheManager

variable {α : Type}

/-- Constructor: empty maps, given TTL and cache directory. -/
def new (ttlSeconds : Nat) (cacheDir : String) : CacheManager α :=
  { cache := AMap.empty, inFlight := AMap.empty
    ttlSeconds := ttlSeconds, cacheDir := cacheDir }

/-- isCacheValid: entry exists and `now - generatedAt < ttlSeconds`.
The subtraction is over the integers, as in JS. -/
def isCacheValid (m : CacheManager α) (key : String) (now : Nat) : Bool :=
  match m.cache.find? key with
  | none => false
  | some entry => ((now : Int) - (entry.generatedAt : Int)) < (m.ttlSeconds : Int)

/-- getRemainingTtl: `max(0, ttl - (now - generatedAt))`, `0` if absent. -/
def getRemainingTtl (m : CacheManager α) (key : String) (now : Nat) : Int :=
  match m.cache.find? key with
  | none => 0
  | some entry =>
    max 0 ((m.ttlSeconds : Int) - ((now : Int) - (entry.generatedAt : Int)))

/-- get: the entry data regardless of freshness, `null` if absent. -/
def get (m : CacheManager α) (key : String) : Option α :=
  match m.cache.find? key with
  | none => none
  | some entry => some entry.data

/-- getValidCache: `get` gated by `isCacheValid`. -/
def getValidCache (m : CacheManager α) (key : String) (now : Nat) : Option α :=
  if m.isCacheValid key now then m.get key else none

/-- set: overwrite the entry with `generatedAt = now` and the given data
(the data object itself is stored unchanged). -/
def set (m : CacheManager α) (key : String) (data : α) (now : Nat) :
    CacheManager α :=
  { m with cache := m.cache.insert key { generatedAt := now, data := data } }

/-- hasInFlight: the slot holds neither `null` nor `undefined`. -/
def hasInFlight (m : CacheManager α) (key : String) : Bool :=
  match m.inFlight.find? key with
  | some (some _) => true
  | _ => false

/-- getInFlight: `this.inFlight[key] || null`. -/
def getInFlight (m : CacheManager α) (key : String) : Option Nat :=
  match m.inFlight.find? key with
  | some (some pid) => some pid
  | _ => none

/-- setInFlight: register the promise for the key. -/
def setInFlight (m : CacheManager α) (key : String) (pid : Nat) :
    CacheManager α :=
  { m with inFlight := m.inFlight.insert key (some pid) }

/-- clearInFlight: assign `null` to the slot. -/
def clearInFlight (m : CacheManager α) (key : String) : CacheManager α :=
  { m with inFlight := m.inFlight.insert key none }

/-- saveToDisk: write the current entry for the key to its sanitized
file name; if the entry is missing, log a warning and return without
touching the disk. The in-memory state is never modified. -/
def saveToDisk (m : CacheManager α) (disk : Disk α) (key : String) :
    Disk α × SaveOutcome :=
  match m.cache.find? key with
  | none => (disk, .warnedNoEntry)
  | some entry =>
    (disk.insert (cacheFileName key) entry, .saved (cacheFileName key))

/-- Loop body of loadAllFromDisk over the directory listing: every file
ending in `.json` is parsed and stored under the reconstructed key; the
second component counts loaded files. -/
def loadAllGo : List (String × CacheEntry α) → CacheManager α × Nat →
    CacheManager α × Nat
  | [], acc => acc
  | (file, entry) :: rest, acc =>
    if strEndsWith file ".json" then
      loadAllGo rest
        ({ acc.1 with cache := acc.1.cache.insert (loadKeyOfFile file) entry },
         acc.2 + 1)
    else loadAllGo rest acc

/-- loadAllFromDisk: read every persisted `.json` record into memory,
returning the new state and the count loaded. -/
def loadAllFromDisk (m : CacheManager α) (disk : Disk α) :
    CacheManager α × Nat :=
  loadAllGo disk (m, 0)

end CacheManager

/-- LanguageStats snapshot served by the GET handler (src/types.ts). The
cache layer and the handler only ever read or overwrite the `cached`
flag; the remaining fields (username, totalBytes, generatedAt, languages)
are never inspected and are collapsed into one opaque payload. -/
structure LanguageStats where
  payload : Nat
  cached : Bool
deriving Repr, DecidableEq

/-- Fetch failure as thrown by src/github.ts: every failure is an `Error`
object, and rate-limit failures additionally carry `retryAfter` or
`resetTime` fields. A value with both fields absent embeds a generic
upstream error. -/
structure FetchError where
  retryAfter : Option Int
  resetTime : Option Int
deriving Repr, DecidableEq

/-- isRateLimitError (src/github.ts): the thrown error carries a
`retryAfter` or a `resetTime` field. -/
def isRateLimitError (e : FetchError) : Bool :=
  e.retryAfter.isSome || e.resetTime.isSome

/-- createRateLimitError (src/github.ts): `retryAfter` is set exactly when
the upstream supplied a nonempty `Retry-After` header, `resetTime` exactly
when it supplied a nonempty `X-RateLimit-Reset` header; the arguments are
the parsed numeric values of those headers. -/
def createRateLimitError (retryAfterHeader resetHeader : Option Int) :
    FetchError :=
  { retryAfter := retryAfterHeader, resetTime := resetHeader }

/-- JS truthiness of an optional numeric field: absent (`undefined`), or
present with value zero, is falsy. -/
def truthyNum : Option Int → Bool
  | none => false
  | some v => v != 0

/-- The slice of src/config.ts the GET handler reads. An unset
GITHUB_USERNAME is the empty string (the loadConfig default), which is
falsy; an unset or empty GITHUB_TOKEN is `none`. -/
structure Config where
  githubUsername : String
  githubToken : Option String
  includePrivate : Bool
deriving Repr, DecidableEq

/-- Observable response of one GET request: the JSON body with its
`cached` flag, or a typed failure status. `rateLimited` (HTTP 429)
carries the value of the `Retry-After` response header when one was set,
`unavailable` is the generic HTTP 503 failure, `badRequest` an HTTP 400
configuration error. -/
inductive HandlerResult where
  | ok (body : LanguageStats)
  | rateLimited (retryAfter : Option Int)
  | unavailable
  | badRequest (msg : String)
deriving Repr, DecidableEq

/-- Tail of the GET handler from the INCLUDE_PRIVATE guard on: start a new
fetch, register it in flight, write through on success, clear the marker
either way (the `finally` block), and on failure serve stale data or a
typed error. `freshResult` is the outcome of the upstream fetch this
request starts and `freshPid` its promise identifier. The returned flag
records whether an upstream fetch call was issued. -/
def startFetch (cfg : Config) (m : CacheManager LanguageStats)
    (freshResult : Except FetchError LanguageStats) (freshPid : Nat)
    (now : Nat) : HandlerResult × CacheManager LanguageStats × Bool :=
  if cfg.includePrivate && cfg.githubToken.isNone then
    (.badRequest "INCLUDE_PRIVATE set but GITHUB_TOKEN not provided", m, false)
  else
    let key := cfg.githubUsername
    let m0 := m.setInFlight key freshPid
    match freshResult with
    | .ok stats =>
      let m1 := (m0.set key stats now).clearInFlight key
      (.ok { stats with cached := false }, m1, true)
    | .error e =>
      let m1 := m0.clearInFlight key
      if isRateLimitError e then
        match m1.get key with
        | some stale => (.ok { stale with cached := true }, m1, true)
        | none =>
          let hint : Option Int :=
            if truthyNum e.retryAfter then e.retryAfter
            else if truthyNum e.resetTime then
              some (max 0 (e.resetTime.getD 0 - (now : Int)))
            else none
          (.rateLimited hint, m1, true)
      else
        match m1.get key with
        | some stale => (.ok { stale with cached := true }, m1, true)
        | none => (.unavailable, m1, true)

/-- The GET / handler (index.ts): fresh-cache hit, else wait on the
in-flight fetch (serving its outcome, or on its failure the stale entry
if any), else fall through to a new fetch. `inFlightResolve` gives the
eventual outcome of the promise a waiting request awaits. The returned
flag records whether this request issued a new upstream fetch call. -/
def handleGet (cfg : Config) (m : CacheManager LanguageStats)
    (inFlightResolve : Nat → Except FetchError LanguageStats)
    (freshResult : Except FetchError LanguageStats) (freshPid : Nat)
    (now : Nat) : HandlerResult × CacheManager LanguageStats × Bool :=
  if cfg.githubUsername = "" then
    (.badRequest "GITHUB_USERNAME not set", m, false)
  else
    let key := cfg.githubUsername
    match m.getValidCache key now with
    | some v => (.ok { v with cached := true }, m, false)
    | none =>
      match m.getInFlight key with
      | some pid =>
        match inFlightResolve pid with
        | .ok d => (.ok { d with cached := false }, m, false)
        | .error _ =>
          match m.get key with
          | some stale => (.ok { stale with cached := true }, m, false)
          | none => startFetch cfg m freshResult freshPid now
      | none => startFetch cfg m freshResult freshPid now

/-- State of the single-threaded event-loop scenario for the coalescing
property: the cache, the next fresh promise identifier, the number of
upstream fetch calls issued so far, and for each arrived request the
promise it awaits. -/
structure LoopState where
  m : CacheManager LanguageStats
  nextPid : Nat
  fetches : Nat
  waiters : List Nat
deriving Repr, DecidableEq

/-- Synchronous prefix of one GET request, run to completion by the JS
event loop before any other request interleaves (the handler contains no
await between its first line and the registration of the fetch promise):
check the fresh cache, attach to an in-flight fetch if one exists, else
start and register a new fetch. A request that responds without awaiting
(config error, fresh-cache hit) registers no waiter. -/
def arriveStep (cfg : Config) (now : Nat) (st : LoopState) : LoopState :=
  if cfg.githubUsername = "" then st
  else
    let key := cfg.githubUsername
    match st.m.getValidCache key now with
    | some _ => st
    | none =>
      match st.m.getInFlight key with
      | some pid => { st with waiters := st.waiters ++ [pid] }
      | none =>
        if cfg.includePrivate && cfg.githubToken.isNone then st
        else
          { m := st.m.setInFlight key st.nextPid
            nextPid := st.nextPid + 1
            fetches := st.fetches + 1
            waiters := st.waiters ++ [st.nextPid] }

/-- n request arrivals in sequence. -/
def arrivals (cfg : Config) (now : Nat) : Nat → LoopState → LoopState
  | 0, st => st
  | n + 1, st => arrivals cfg now n (arriveStep cfg now st)

/-- Resumption of one waiting continuation after the promise it awaited
settled: serve the outcome on success; on failure serve the stale entry if
any, else fall through to a new fetch (modelled to completion through
startFetch with outcome `freshResult`). -/
def resumeWaiter (cfg : Config)
    (outcome freshResult : Except FetchError LanguageStats) (now : Nat)
    (st : LoopState) : HandlerResult × LoopState :=
  match outcome with
  | .ok d => (.ok { d with cached := false }, st)
  | .error _ =>
    let key := cfg.githubUsername
    match st.m.get key with
    | some stale => (.ok { stale with cached := true }, st)
    | none =>
      let r := startFetch cfg st.m freshResult st.nextPid now
      (r.1,
       { st with
          m := r.2.1
          nextPid := st.nextPid + 1
          fetches := st.fetches + (if r.2.2 then 1 else 0) })

/-- Sequential resumption of all waiting continuations, in arrival order,
threading the event-loop state and collecting each response. -/
def resumeAll (cfg : Config)
    (outcome freshResult : Except FetchError LanguageStats) (now : Nat) :
    List Nat → LoopState × List HandlerResult → LoopState × List HandlerResult
  | [], acc => acc
  | _ :: rest, acc =>
    let step := resumeWaiter cfg outcome freshResult now acc.1
    resumeAll cfg outcome freshResult now rest (step.2, acc.2 ++ [step.1])

/-- Settlement of the single in-flight promise: the fetch promise body
runs first (write-through on success, clearInFlight either way, the
`finally` block), then every waiting continuation resumes in order. -/
def settleAll (cfg : Config) (st : LoopState)
    (outcome freshResult : Except FetchError LanguageStats) (now : Nat) :
    LoopState × List HandlerResult :=
  let key := cfg.githubUsername
  let m1 := match outcome with
    | .ok stats => (st.m.set key stats now).clearInFlight key
    | .error _ => st.m.clearInFlight key
  resumeAll cfg outcome freshResult now st.waiters ({ st with m := m1 }, [])

/-- Full coalescing scenario: n concurrent GET requests for the same key
arrive while no fetch is in flight, then the in-flight promise settles
with `outcome` and every waiter resumes. -/
def runConcurrent (cfg : Config) (m0 : CacheManager LanguageStats) (n : Nat)
    (outcome freshResult : Except FetchError LanguageStats) (now : Nat) :
    LoopState × List HandlerResult :=
  settleAll cfg
    (arrivals cfg now n { m := m0, nextPid := 0, fetches := 0, waiters := [] })
    outcome freshResult now

/-- Events observable during one scheduled refresh pass
(DataScheduler.fetchAllUserData). -/
inductive PassEvent where
  | fetched (username : String)
  | failed (username : String)
  | delay
deriving Repr, DecidableEq

/-- Accumulated state of one refresh pass. -/
structure PassState (α : Type) where
  m : CacheManager α
  disk : Disk α
  successCount : Nat
  failureCount : Nat
  events : List PassEvent
deriving Repr, DecidableEq

/-- Success test on a fetch outcome. -/
def fetchOk {α : Type} : Except FetchError α → Bool
  | .ok _ => true
  | .error _ => false

/-- Loop body of DataScheduler.fetchAllUserData: for each username fetch,
write through to memory and disk on success and count it, on failure
count and continue with the next username; a 2 second delay follows each
successful fetch when more than one username is configured (`allCount` is
the length of the full configured list, which the source checks inside
the loop). -/
def passGo {α : Type} (allCount : Nat) (results : String → Except FetchError α)
    (now : Nat) : List String → PassState α → PassState α
  | [], acc => acc
  | u :: rest, acc =>
    match results u with
    | .ok stats =>
      let m' := acc.m.set u stats now
      let disk' := (m'.saveToDisk acc.disk u).1
      passGo allCount results now rest
        { m := m', disk := disk'
          successCount := acc.successCount + 1
          failureCount := acc.failureCount
          events := acc.events ++ [.fetched u]
            ++ (if allCount > 1 then [.delay] else []) }
    | .error _ =>
      passGo allCount results now rest
        { acc with failureCount := acc.failureCount + 1
                   events := acc.events ++ [.failed u] }

/-- DataScheduler.fetchAllUserData for one trigger: iterate the configured
usernames sequentially, never aborting the pass on one failure, and record
success and failure counts. -/
def fetchAllUserData {α : Type} (targetUsernames : List String)
    (results : String → Except FetchError α) (m : CacheManager α)
    (disk : Disk α) (now : Nat) : PassState α :=
  passGo targetUsernames.length results now targetUsernames
    { m := m, disk := disk, successCount := 0, failureCount := 0, events := [] }

/-- Registry of recurring cron triggers: task identifier to running flag
(node-cron `ScheduledTask.stop()` sets the flag to false). -/
abbrev CronRegistry := AMap Nat Bool

/-- DataScheduler state: the identifiers of the tasks it registered. -/
structure DataScheduler where
  tasks : List Nat
deriving Repr, DecidableEq

/-- DataScheduler.stop: `this.tasks.forEach(task => task.stop())` then
`this.tasks = []`. Always succeeds. -/
def DataScheduler.stop (s : DataScheduler) (reg : CronRegistry) :
    DataScheduler × CronRegistry :=
  ({ tasks := [] }, s.tasks.foldl (fun r tid => r.insert tid false) reg)

/-- DataScheduler.start: warn and do nothing when no usernames are
configured; otherwise register the one recurring every-3-hours trigger.
The immediate startup refresh pass is fetchAllUserData. -/
def DataScheduler.start (targetUsernames : List String) (s : DataScheduler)
    (reg : CronRegistry) (freshId : Nat) : DataScheduler × CronRegistry :=
  if targetUsernames.length = 0 then (s, reg)
  else ({ tasks := s.tasks ++ [freshId] }, reg.insert freshId true)

section MapLemmas

namespace AMap

variable {κ α : Type} [DecidableEq κ]

@[simp] theorem find?_empty (k : κ) : (empty : AMap κ α).find? k = none := rfl

@[simp] theorem find?_insert (m : AMap κ α) (k : κ) (v : α) :
    (m.insert k v).find? k = some v := by
  induction m with
  | nil => simp [insert, find?]
  | cons hd tl ih =>
    by_cases h : hd.1 = k <;> simp [insert, find?, h, ih]

theorem find?_insert_ne (m : AMap κ α) (k k' : κ) (v : α) (h : k ≠ k') :
    (m.insert k v).find? k' = m.find? k' := by
  induction m with
  | nil => simp [insert, find?, h]
  | cons hd tl ih =>
    by_cases hk : hd.1 = k <;> by_cases hk' : hd.1 = k' <;>
      simp_all [insert, find?]

end AMap

namespace CacheManager

variable {α : Type}

@[simp] theorem get_new (ttl : Nat) (dir : String) (k : String) :
    (new (α := α) ttl dir).get k = none := rfl

@[simp] theorem getValidCache_new (ttl : Nat) (dir : String) (k : String)
    (now : Nat) : (new (α := α) ttl dir).getValidCache k now = none := rfl

@[simp] theorem get_set (m : CacheManager α) (k : String) (d : α) (t : Nat) :
    (m.set k d t).get k = some d := by
  simp [set, get]

@[simp] theorem get_setInFlight (m : CacheManager α) (k k' : String)
    (p : Nat) : (m.setInFlight k p).get k' = m.get k' := rfl

@[simp] theorem get_clearInFlight (m : CacheManager α) (k k' : String) :
    (m.clearInFlight k).get k' = m.get k' := rfl

@[simp] theorem cache_find_set (m : CacheManager α) (k : String) (d : α)
    (t : Nat) : (m.set k d t).cache.find? k = some ⟨t, d⟩ := by
  simp [set]

@[simp] theorem isCacheValid_set (m : CacheManager α) (k : String) (d : α)
    (t now : Nat) :
    (m.set k d t).isCacheValid k now
      = decide (((now : Int) - (t : Int)) < (m.ttlSeconds : Int)) := by
  simp [isCacheValid, set]

@[simp] theorem ttl_set (m : CacheManager α) (k : String) (d : α) (t : Nat) :
    (m.set k d t).ttlSeconds = m.ttlSeconds := rfl

@[simp] theorem getValidCache_setInFlight (m : CacheManager α) (k k' : String)
    (p : Nat) (now : Nat) :
    (m.setInFlight k p).getValidCache k' now = m.getValidCache k' now := rfl

@[simp] theorem getInFlight_setInFlight (m : CacheManager α) (k : String)
    (p : Nat) : (m.setInFlight k p).getInFlight k = some p := by
  simp [setInFlight, getInFlight]

@[simp] theorem getInFlight_new (ttl : Nat) (dir : String) (k : String) :
    (new (α := α) ttl dir).getInFlight k = none := rfl

end CacheManager

end MapLemmas

section SanitizeLemmas

/-- Sanitized characters are never a dot, so a sanitized key never
contains part of a `.json` occurrence. -/
theorem sanitizeChar_ne_dot (c : Char) : sanitizeChar c ≠ '.' := by
  unfold sanitizeChar
  split
  · rename_i h
    intro hc
    subst hc
    revert h
    decide
  · decide

/-- On a character the handler keeps (alphanumeric or hyphen), load-time
underscore replacement composed with sanitization is the identity. -/
theorem roundChar_eq (c : Char) (h : c.isAlphanum || c = '-') :
    (if sanitizeChar c = '_' then '-' else sanitizeChar c) = c := by
  have hs : sanitizeChar c = c := by
    unfold sanitizeChar
    rcases Bool.or_eq_true_iff.mp h with h' | h'
    · simp [h']
    · simp_all
  rw [hs]
  have hne : c ≠ '_' := by
    rcases Bool.or_eq_true_iff.mp h with h' | h'
    · intro hc; subst hc; revert h'; decide
    · intro hc; rw [hc] at h'; revert h'; decide
  simp [hne]

/-- Removal of the first occurrence of a pattern from `s ++ pat` recovers
`s` whenever no character of `s` equals the head of the pattern. -/
theorem replaceFirst_append_head (s : List Char) (d : Char) (ps : List Char)
    (h : ∀ c ∈ s, c ≠ d) :
    replaceFirst (s ++ (d :: ps)) (d :: ps) = s := by
  induction s with
  | nil =>
    rw [List.nil_append]
    have hpos : (d :: ps).isPrefixOf (d :: ps) = true :=
      List.isPrefixOf_iff_prefix.mpr (List.prefix_refl _)
    simp only [replaceFirst, hpos, if_true]
    exact List.drop_length _
  | cons c rest ih =>
    have hc : c ≠ d := h c (List.mem_cons_self c rest)
    have hrest : ∀ c' ∈ rest, c' ≠ d := fun c' hc' => h c' (List.mem_cons_of_mem c hc')
    rw [List.cons_append]
    have hpre : (d :: ps).isPrefixOf (c :: (rest ++ (d :: ps))) = false := by
      apply Bool.eq_false_iff.mpr
      intro hp
      exact hc (List.cons_prefix_cons.mp (List.isPrefixOf_iff_prefix.mp hp)).1.symm
    simp only [replaceFirst, hpre, Bool.false_eq_true, if_false]
    rw [ih hrest]

/-- Specialization to the `.json` extension. -/
theorem replaceFirst_append_json (s : List Char) (h : ∀ c ∈ s, c ≠ '.') :
    replaceFirst (s ++ ".json".data) ".json".data = s := by
  have hj : (".json".data : List Char) = '.' :: "json".data := rfl
  rw [hj]
  exact replaceFirst_append_head s '.' "json".data h

/-- The saved file name always carries the `.json` suffix. -/
theorem strEndsWith_cacheFileName (key : String) :
    strEndsWith (cacheFileName key) ".json" = true := by
  unfold strEndsWith cacheFileName
  apply decide_eq_true
  show ".json".data <:+ (sanitizeKey key ++ ".json").data
  rw [String.data_append]
  exact List.suffix_append _ _

/-- Data of a sanitized key. -/
theorem sanitizeKey_data (key : String) :
    (sanitizeKey key).data = key.data.map sanitizeChar := rfl

/-- A key made only of alphanumerics and hyphens survives the
persistence round trip unchanged. -/
theorem roundTripKey_eq_self (key : String)
    (h : key.data.all (fun c => c.isAlphanum || c = '-')) :
    roundTripKey key = key := by
  unfold roundTripKey loadKeyOfFile cacheFileName
  rw [String.data_append, sanitizeKey_data]
  have hdots : ∀ c ∈ key.data.map sanitizeChar, c ≠ '.' := by
    intro c hc
    rcases List.mem_map.mp hc with ⟨c', _, rfl⟩
    exact sanitizeChar_ne_dot c'
  rw [replaceFirst_append_json _ hdots]
  have hall := List.all_eq_true.mp h
  have hlist : ∀ (l : List Char), (∀ c ∈ l, (c.isAlphanum || c = '-') = true) →
      (l.map sanitizeChar).map (fun c => if c = '_' then '-' else c) = l := by
    intro l
    induction l with
    | nil => intro _; rfl
    | cons c rest ih =>
      intro hl
      simp only [List.map_cons]
      rw [roundChar_eq c (hl c (List.mem_cons_self c rest)),
        ih (fun x hx => hl x (List.mem_cons_of_mem c hx))]
  rw [hlist key.data hall]

end SanitizeLemmas

/-- C1 (amended): the persistence round trip `set`, `saveToDisk`, process
restart, `loadAllFromDisk` restores the entry under the original key, with
the same `generatedAt`, for every key made only of alphanumerics and
hyphens. For other keys the reconstruction is not the inverse of the
sanitization (see the counterexample): load replaces every underscore of
the file name with a hyphen. -/
theorem c1_persistence_roundtrip {α : Type} (m : CacheManager α) (key : String)
    (s : α) (t ttl2 : Nat) (dir2 : String)
    (h : key.data.all (fun c => c.isAlphanum || c = '-')) :
    ((CacheManager.new (α := α) ttl2 dir2).loadAllFromDisk
        (((m.set key s t).saveToDisk AMap.empty key).1)).1.cache.find? key
      = some ⟨t, s⟩
    ∧ ((CacheManager.new (α := α) ttl2 dir2).loadAllFromDisk
        (((m.set key s t).saveToDisk AMap.empty key).1)).1.get key = some s
    ∧ ((CacheManager.new (α := α) ttl2 dir2).loadAllFromDisk
        (((m.set key s t).saveToDisk AMap.empty key).1)).2 = 1 := by
  have hfind : (m.set key s t).cache.find? key = some ⟨t, s⟩ := by simp
  have hdisk : ((m.set key s t).saveToDisk AMap.empty key).1
      = [(cacheFileName key, (⟨t, s⟩ : CacheEntry α))] := by
    unfold CacheManager.saveToDisk
    rw [hfind]
    rfl
  have hrt : loadKeyOfFile (cacheFileName key) = key := roundTripKey_eq_self key h
  rw [hdisk]
  refine ⟨?_, ?_, ?_⟩ <;>
    simp [CacheManager.loadAllFromDisk, CacheManager.loadAllGo,
      strEndsWith_cacheFileName, hrt, CacheManager.get, CacheManager.new]

/-- Witness for C1 at key "alice" (alphanumeric), payload 9, set at 10. -/
theorem c1_persistence_roundtrip_witness :
    ("alice".data.all (fun c => c.isAlphanum || c = '-')) = true
    ∧ ((CacheManager.new (α := Nat) 60 "./cache").loadAllFromDisk
        ((((CacheManager.new (α := Nat) 60 "./cache").set "alice" 9 10).saveToDisk
          AMap.empty "alice").1)).1.get "alice" = some 9 :=
  ⟨by decide,
   (c1_persistence_roundtrip (CacheManager.new 60 "./cache") "alice" 9 10 60
     "./cache" (by decide)).2.1⟩

/-- Counterexample to C1 as stated: for the key `"a_b"` the on-disk file
name sanitization composed with the load-time reconstruction is not the
identity (load turns the underscore into a hyphen), so after a restart the
entry is found under `"a-b"` and `get "a_b"` is absent. -/
theorem c1_roundtrip_counterexample :
    roundTripKey "a_b" = "a-b"
    ∧ ((CacheManager.new (α := Nat) 60 "./cache").loadAllFromDisk
        ((((CacheManager.new (α := Nat) 60 "./cache").set "a_b" 5 10).saveToDisk
          AMap.empty "a_b").1)).1.get "a_b" = none
    ∧ ((CacheManager.new (α := Nat) 60 "./cache").loadAllFromDisk
        ((((CacheManager.new (α := Nat) 60 "./cache").set "a_b" 5 10).saveToDisk
          AMap.empty "a_b").1)).1.get "a-b" = some 5 := by
  refine ⟨by decide, by decide, by decide⟩

/-- C10: `saveToDisk` on a key with no in-memory entry only logs a warning:
the on-disk records are returned unchanged and no file is written. The
in-memory cache is untouched as well: the embedding of `saveToDisk` is a
pure function that never produces a new manager, mirroring a method that
never assigns to `this.cache`. -/
theorem c10_save_without_entry {α : Type} (m : CacheManager α) (disk : Disk α)
    (key : String) (h : m.cache.find? key = none) :
    m.saveToDisk disk key = (disk, SaveOutcome.warnedNoEntry) := by
  unfold CacheManager.saveToDisk
  rw [h]

/-- Witness for C10: empty manager, key "ghost", empty disk. -/
theorem c10_save_without_entry_witness :
    (CacheManager.new (α := Nat) 60 "./cache").saveToDisk AMap.empty "ghost"
      = (AMap.empty, SaveOutcome.warnedNoEntry) :=
  c10_save_without_entry (CacheManager.new 60 "./cache") AMap.empty "ghost" rfl

/-- C6: after `set(K, S)` at time `t`, `get K = some S` and the stored
`generatedAt` is `t`; `getValidCache` returns S while `now - t < ttl` and
none once `now - t >= ttl`; and on a never-populated manager both `get`
and `getValidCache` return none. -/
theorem c6_store_contract {α : Type} (m : CacheManager α) (k : String)
    (s : α) (t now : Nat) (ttl : Nat) (dir : String) :
    (m.set k s t).get k = some s
    ∧ (m.set k s t).cache.find? k = some ⟨t, s⟩
    ∧ (((now : Int) - (t : Int)) < (m.ttlSeconds : Int) →
        (m.set k s t).getValidCache k now = some s)
    ∧ (((now : Int) - (t : Int)) ≥ (m.ttlSeconds : Int) →
        (m.set k s t).getValidCache k now = none)
    ∧ (CacheManager.new (α := α) ttl dir).get k = none
    ∧ (CacheManager.new (α := α) ttl dir).getValidCache k now = none := by
  refine ⟨by simp, by simp, ?_, ?_, by simp, by simp⟩
  · intro h
    simp [CacheManager.getValidCache, h]
  · intro h
    simp [CacheManager.getValidCache, not_lt.mpr h]

/-- Witness for C6 at a concrete store: key "alice", payload 7, set at
time 100 with TTL 50, queried fresh at 120 and expired at 200. -/
theorem c6_store_contract_witness :
    ((CacheManager.new (α := Nat) 50 "./cache").set "alice" 7 100).get "alice"
        = some 7
    ∧ ((CacheManager.new (α := Nat) 50 "./cache").set "alice" 7 100).getValidCache
        "alice" 120 = some 7
    ∧ ((CacheManager.new (α := Nat) 50 "./cache").set "alice" 7 100).getValidCache
        "alice" 200 = none := by
  have h := c6_store_contract (CacheManager.new (α := Nat) 50 "./cache")
    "alice" 7 100 120 50 "./cache"
  have h' := c6_store_contract (CacheManager.new (α := Nat) 50 "./cache")
    "alice" 7 100 200 50 "./cache"
  exact ⟨h.1, h.2.2.1 (by decide), h'.2.2.2.1 (by decide)⟩

/-- Every branch of startFetch past the configuration guard issues exactly
one upstream fetch call. -/
theorem startFetch_issues (cfg : Config) (m : CacheManager LanguageStats)
    (freshResult : Except FetchError LanguageStats) (freshPid now : Nat)
    (hguard : (cfg.includePrivate && cfg.githubToken.isNone) = false) :
    (startFetch cfg m freshResult freshPid now).2.2 = true := by
  unfold startFetch
  rw [hguard]
  simp only [Bool.false_eq_true, if_false]
  cases freshResult with
  | ok stats => rfl
  | error e =>
    dsimp only
    split
    · split <;> rfl
    · split <;> rfl

/-- C2 (amended): a lookup that awaited an in-flight fetch that failed
serves the stale entry when one exists (without issuing any upstream
call); when no entry exists at all it does not surface the in-flight
failure but falls through and starts a new upstream fetch of its own
(surfacing a typed failure only if that fetch also fails). -/
theorem c2_inflight_failure (cfg : Config) (m : CacheManager LanguageStats)
    (resolve : Nat → Except FetchError LanguageStats)
    (freshResult : Except FetchError LanguageStats)
    (freshPid now pid : Nat) (e : FetchError)
    (hkey : ¬ cfg.githubUsername = "")
    (hvalid : m.getValidCache cfg.githubUsername now = none)
    (hflight : m.getInFlight cfg.githubUsername = some pid)
    (hfail : resolve pid = .error e) :
    (∀ s, m.get cfg.githubUsername = some s →
        handleGet cfg m resolve freshResult freshPid now
          = (.ok { s with cached := true }, m, false))
    ∧ (m.get cfg.githubUsername = none →
        handleGet cfg m resolve freshResult freshPid now
          = startFetch cfg m freshResult freshPid now
        ∧ ((cfg.includePrivate && cfg.githubToken.isNone) = false →
            (handleGet cfg m resolve freshResult freshPid now).2.2 = true)) := by
  constructor
  · intro s hstale
    simp only [handleGet, if_neg hkey, hvalid, hflight, hfail, hstale]
  · intro hnone
    have heq : handleGet cfg m resolve freshResult freshPid now
        = startFetch cfg m freshResult freshPid now := by
      simp only [handleGet, if_neg hkey, hvalid, hflight, hfail, hnone]
    refine ⟨heq, fun hguard => ?_⟩
    rw [heq]
    exact startFetch_issues cfg m freshResult freshPid now hguard

/-- Witness for C2 (stale branch) at a concrete state: expired entry for
"alice", failed in-flight fetch, stale snapshot served from cache. -/
theorem c2_inflight_failure_witness :
    handleGet ⟨"alice", none, false⟩
        (((CacheManager.new 60 "./cache").set "alice" ⟨7, false⟩ 0).setInFlight
          "alice" 0)
        (fun _ => .error ⟨none, none⟩) (.ok ⟨1, false⟩) 1 100
      = (.ok ⟨7, true⟩,
         ((CacheManager.new 60 "./cache").set "alice" ⟨7, false⟩ 0).setInFlight
           "alice" 0, false) := by
  have h := (c2_inflight_failure ⟨"alice", none, false⟩
      ((((CacheManager.new 60 "./cache") : CacheManager LanguageStats).set
        "alice" ⟨7, false⟩ 0).setInFlight "alice" 0)
      (fun _ => .error ⟨none, none⟩) (.ok ⟨1, false⟩) 1 100 0 ⟨none, none⟩
      (by decide) rfl rfl rfl).1 ⟨7, false⟩ rfl
  exact h

/-- Counterexample to C2 as stated: with a failed in-flight fetch and no
cache entry at all, the handler does not surface the failure — it issues a
new upstream fetch (the issued flag is true) and serves that fetch's
successful result. -/
theorem c2_surfaces_failure_counterexample :
    (handleGet ⟨"alice", none, false⟩
        ((CacheManager.new 60 "./cache").setInFlight "alice" 0)
        (fun _ => .error ⟨none, none⟩) (.ok ⟨42, false⟩) 1 100).2.2 = true
    ∧ (handleGet ⟨"alice", none, false⟩
        ((CacheManager.new 60 "./cache").setInFlight "alice" 0)
        (fun _ => .error ⟨none, none⟩) (.ok ⟨42, false⟩) 1 100).1
      = .ok ⟨42, false⟩ :=
  ⟨rfl, rfl⟩

/-- C4: with an existing (stale) entry, no fresh cache and no fetch in
flight, a lookup whose own fetch fails — rate limited or generic — serves
the prior snapshot flagged `cached: true`, not a failure; the entry
survives in the cache and the in-flight marker is cleared. -/
theorem c4_stale_if_error (cfg : Config) (m : CacheManager LanguageStats)
    (resolve : Nat → Except FetchError LanguageStats) (freshPid now : Nat)
    (e : FetchError) (s : LanguageStats)
    (hkey : ¬ cfg.githubUsername = "")
    (hvalid : m.getValidCache cfg.githubUsername now = none)
    (hflight : m.getInFlight cfg.githubUsername = none)
    (hguard : (cfg.includePrivate && cfg.githubToken.isNone) = false)
    (hstale : m.get cfg.githubUsername = some s) :
    handleGet cfg m resolve (.error e) freshPid now
      = (.ok { s with cached := true },
         (m.setInFlight cfg.githubUsername freshPid).clearInFlight
           cfg.githubUsername, true) := by
  simp only [handleGet, if_neg hkey, hvalid, hflight]
  simp only [startFetch, hguard, Bool.false_eq_true, if_false]
  by_cases hr : isRateLimitError e = true <;> simp [hr, hstale]

/-- Witness for C4: expired entry for "alice" set at 0, queried at 100
with TTL 60, fetch failing rate limited. -/
theorem c4_stale_if_error_witness :
    handleGet ⟨"alice", none, false⟩
        ((CacheManager.new 60 "./cache").set "alice" ⟨7, false⟩ 0)
        (fun _ => .error ⟨none, none⟩) (.error ⟨some 3, none⟩) 1 100
      = (.ok ⟨7, true⟩,
         (((CacheManager.new 60 "./cache").set "alice" ⟨7, false⟩ 0).setInFlight
           "alice" 1).clearInFlight "alice", true) :=
  c4_stale_if_error ⟨"alice", none, false⟩
    ((CacheManager.new 60 "./cache").set "alice" ⟨7, false⟩ 0)
    (fun _ => .error ⟨none, none⟩) 1 100 ⟨some 3, none⟩ ⟨7, false⟩
    (by decide) (by decide) rfl rfl rfl

/-- C5 (amended): with no entry at all, a failed lookup surfaces a typed
failure: a generic failure (no rate-limit fields) yields the 503
unavailability; a rate-limit failure yields HTTP 429 whose Retry-After
hint equals the upstream-supplied value when that value is nonzero, else
is derived from a nonzero reset epoch as `max(0, reset - now)`, else is
omitted; and an error is classified as rate limited exactly when the
upstream supplied at least one of the two hint fields. -/
theorem c5_failure_taxonomy (cfg : Config) (m : CacheManager LanguageStats)
    (resolve : Nat → Except FetchError LanguageStats) (freshPid now : Nat)
    (e : FetchError)
    (hkey : ¬ cfg.githubUsername = "")
    (hvalid : m.getValidCache cfg.githubUsername now = none)
    (hflight : m.getInFlight cfg.githubUsername = none)
    (hguard : (cfg.includePrivate && cfg.githubToken.isNone) = false)
    (hnone : m.get cfg.githubUsername = none) :
    (isRateLimitError e = false →
        handleGet cfg m resolve (.error e) freshPid now
          = (.unavailable,
             (m.setInFlight cfg.githubUsername freshPid).clearInFlight
               cfg.githubUsername, true))
    ∧ (∀ v : Int, e.retryAfter = some v → ¬ v = 0 →
        (handleGet cfg m resolve (.error e) freshPid now).1
          = .rateLimited (some v))
    ∧ (∀ w : Int, e.resetTime = some w → ¬ w = 0 →
        (e.retryAfter = none ∨ e.retryAfter = some 0) →
        (handleGet cfg m resolve (.error e) freshPid now).1
          = .rateLimited (some (max 0 (w - (now : Int)))))
    ∧ (∀ h1 h2 : Option Int,
        isRateLimitError (createRateLimitError h1 h2) = (h1.isSome || h2.isSome)) := by
  have hred : handleGet cfg m resolve (.error e) freshPid now
      = startFetch cfg m (.error e) freshPid now := by
    simp only [handleGet, if_neg hkey, hvalid, hflight]
  refine ⟨?_, ?_, ?_, fun h1 h2 => rfl⟩
  · intro hr
    rw [hred]
    simp only [startFetch, hguard, Bool.false_eq_true, if_false]
    simp [hr, hnone]
  · intro v hv hv0
    rw [hred]
    have hr : isRateLimitError e = true := by
      simp [isRateLimitError, hv]
    simp only [startFetch, hguard, Bool.false_eq_true, if_false]
    simp [hr, hnone, truthyNum, hv, hv0]
  · intro w hw hw0 hra
    rw [hred]
    have hr : isRateLimitError e = true := by
      simp [isRateLimitError, hw]
    have hta : truthyNum e.retryAfter = false := by
      rcases hra with h | h <;> simp [truthyNum, h]
    have htw : truthyNum e.resetTime = true := by
      simp [truthyNum, hw, hw0]
    simp only [startFetch, hguard, Bool.false_eq_true, if_false]
    simp [hr, hnone, hta, hw]
    simpa [truthyNum] using hw0

/-- Witness for C5: empty cache, rate-limit failure with Retry-After 3
yields 429 with hint 3; generic failure yields 503. -/
theorem c5_failure_taxonomy_witness :
    (handleGet ⟨"alice", none, false⟩ (CacheManager.new 60 "./cache")
        (fun _ => .error ⟨none, none⟩) (.error ⟨some 3, none⟩) 0 100).1
      = .rateLimited (some 3)
    ∧ handleGet ⟨"alice", none, false⟩ (CacheManager.new 60 "./cache")
        (fun _ => .error ⟨none, none⟩) (.error ⟨none, none⟩) 0 100
      = (.unavailable,
         ((CacheManager.new 60 "./cache").setInFlight "alice" 0).clearInFlight
           "alice", true) :=
  ⟨(c5_failure_taxonomy ⟨"alice", none, false⟩ (CacheManager.new 60 "./cache")
      (fun _ => .error ⟨none, none⟩) 0 100 ⟨some 3, none⟩
      (by decide) rfl rfl rfl rfl).2.1 3 rfl (by decide),
   (c5_failure_taxonomy ⟨"alice", none, false⟩ (CacheManager.new 60 "./cache")
      (fun _ => .error ⟨none, none⟩) 0 100 ⟨none, none⟩
      (by decide) rfl rfl rfl rfl).1 rfl⟩

/-- Counterexample to C5 as stated: the upstream supplied Retry-After 0,
yet the 429 response carries no retry hint at all (JS truthiness drops a
zero value), so the hint does not equal the upstream-supplied value. -/
theorem c5_zero_retry_counterexample :
    (handleGet ⟨"alice", none, false⟩ (CacheManager.new 60 "./cache")
        (fun _ => .error ⟨none, none⟩) (.error ⟨some 0, none⟩) 0 100).1
      = .rateLimited none
    ∧ (handleGet ⟨"alice", none, false⟩ (CacheManager.new 60 "./cache")
        (fun _ => .error ⟨none, none⟩) (.error ⟨some 0, none⟩) 0 100).1
      ≠ .rateLimited (some 0) := by
  exact ⟨rfl, by decide⟩

/-- Once a fetch is in flight and no fresh cache exists, every further
arrival only attaches to the existing promise: the cache, promise counter
and fetch count are untouched. -/
theorem arrivals_inflight (cfg : Config) (now p : Nat)
    (hkey : ¬ cfg.githubUsername = "") :
    ∀ (k : Nat) (st : LoopState),
      st.m.getValidCache cfg.githubUsername now = none →
      st.m.getInFlight cfg.githubUsername = some p →
      arrivals cfg now k st
        = { st with waiters := st.waiters ++ List.replicate k p } := by
  intro k
  induction k with
  | zero => intro st _ _; simp [arrivals]
  | succ k ih =>
    intro st hvalid hinf
    have hstep : arriveStep cfg now st = { st with waiters := st.waiters ++ [p] } := by
      unfold arriveStep
      rw [if_neg hkey]
      simp only [hvalid, hinf]
    show arrivals cfg now k (arriveStep cfg now st) = _
    rw [hstep, ih { st with waiters := st.waiters ++ [p] } hvalid hinf]
    simp [List.replicate_succ]

/-- When each resumption leaves the state unchanged and produces the same
response, resuming a list of waiters appends one copy of that response per
waiter. -/
theorem resumeAll_fixed (cfg : Config)
    (outcome freshResult : Except FetchError LanguageStats) (now : Nat)
    (st : LoopState) (r : HandlerResult)
    (hres : resumeWaiter cfg outcome freshResult now st = (r, st)) :
    ∀ (ws : List Nat) (acc : List HandlerResult),
      resumeAll cfg outcome freshResult now ws (st, acc)
        = (st, acc ++ List.replicate ws.length r) := by
  intro ws
  induction ws with
  | nil => intro acc; simp [resumeAll]
  | cons w rest ih =>
    intro acc
    simp only [resumeAll, hres]
    rw [ih (acc ++ [r])]
    simp [List.replicate_succ]

/-- Settlement with an entry still in the cache: the promise body runs
once, then every waiter gets the same response — the fresh snapshot on
success, the stale entry on failure. -/
theorem settleAll_replicate (cfg : Config) (st : LoopState)
    (outcome freshResult : Except FetchError LanguageStats) (now : Nat)
    (s : LanguageStats)
    (hstale : st.m.get cfg.githubUsername = some s) :
    settleAll cfg st outcome freshResult now
      = ({ st with m := (match outcome with
            | .ok stats => (st.m.set cfg.githubUsername stats now).clearInFlight
                cfg.githubUsername
            | .error _ => st.m.clearInFlight cfg.githubUsername) },
         List.replicate st.waiters.length
           (match outcome with
            | .ok d => HandlerResult.ok { d with cached := false }
            | .error _ => HandlerResult.ok { s with cached := true })) := by
  cases outcome with
  | ok d =>
    unfold settleAll
    dsimp only
    have hres : resumeWaiter cfg (.ok d) freshResult now
        { st with m := ((st.m.set cfg.githubUsername d now).clearInFlight cfg.githubUsername) }
        = (.ok { d with cached := false },
           { st with m := ((st.m.set cfg.githubUsername d now).clearInFlight cfg.githubUsername) }) := rfl
    rw [resumeAll_fixed cfg _ freshResult now _ _ hres]
    simp
  | error e =>
    unfold settleAll
    dsimp only
    have hget : (st.m.clearInFlight cfg.githubUsername).get cfg.githubUsername
        = some s := by simp [hstale]
    have hres : resumeWaiter cfg (.error e) freshResult now
        { st with m := st.m.clearInFlight cfg.githubUsername }
        = (.ok { s with cached := true },
           { st with m := st.m.clearInFlight cfg.githubUsername }) := by
      unfold resumeWaiter
      simp only [hget]
    rw [resumeAll_fixed cfg _ freshResult now _ _ hres]
    simp

/-- C3: n concurrent lookups (n at least 1) of the same expired key — an
entry exists but is no longer valid, and nothing is in flight — issue
exactly one upstream fetch call, and every one of the n callers receives
the same response: the fetched snapshot when the fetch succeeds, the same
stale-entry fallback when it fails. -/
theorem c3_coalescing (cfg : Config) (m0 : CacheManager LanguageStats)
    (n : Nat) (outcome freshResult : Except FetchError LanguageStats)
    (now : Nat) (s : LanguageStats)
    (hn : 1 ≤ n)
    (hkey : ¬ cfg.githubUsername = "")
    (hguard : (cfg.includePrivate && cfg.githubToken.isNone) = false)
    (hstale : m0.get cfg.githubUsername = some s)
    (hexp : m0.isCacheValid cfg.githubUsername now = false)
    (hinf : m0.getInFlight cfg.githubUsername = none) :
    (runConcurrent cfg m0 n outcome freshResult now).1.fetches = 1
    ∧ (runConcurrent cfg m0 n outcome freshResult now).2
      = List.replicate n
          (match outcome with
           | .ok d => HandlerResult.ok { d with cached := false }
           | .error _ => HandlerResult.ok { s with cached := true }) := by
  have hvalid0 : m0.getValidCache cfg.githubUsername now = none := by
    simp [CacheManager.getValidCache, hexp]
  obtain ⟨k, rfl⟩ : ∃ k, n = k + 1 := ⟨n - 1, (Nat.succ_pred_eq_of_pos hn).symm⟩
  have hstep : arriveStep cfg now
      { m := m0, nextPid := 0, fetches := 0, waiters := [] }
      = { m := m0.setInFlight cfg.githubUsername 0, nextPid := 1, fetches := 1,
          waiters := [0] } := by
    unfold arriveStep
    rw [if_neg hkey]
    simp only [hvalid0, hinf, hguard, Bool.false_eq_true, if_false]
    rfl
  have harr : arrivals cfg now (k + 1)
      { m := m0, nextPid := 0, fetches := 0, waiters := [] }
      = { m := m0.setInFlight cfg.githubUsername 0, nextPid := 1, fetches := 1,
          waiters := List.replicate (k + 1) 0 } := by
    show arrivals cfg now k (arriveStep cfg now _) = _
    rw [hstep]
    rw [arrivals_inflight cfg now 0 hkey k _ (by simp [hvalid0]) (by simp)]
    simp [List.replicate_succ]
  have hrun : runConcurrent cfg m0 (k + 1) outcome freshResult now
      = settleAll cfg
          { m := m0.setInFlight cfg.githubUsername 0, nextPid := 1, fetches := 1,
            waiters := List.replicate (k + 1) 0 }
          outcome freshResult now := by
    unfold runConcurrent
    rw [harr]
  have hstale1 : ({ m := m0.setInFlight cfg.githubUsername 0, nextPid := 1, fetches := 1, waiters := List.replicate (k + 1) 0 } : LoopState).m.get cfg.githubUsername = some s := by
    simp [hstale]
  rw [hrun, settleAll_replicate cfg _ outcome freshResult now s hstale1]
  constructor
  · rfl
  · simp

/-- Witness for C3: three concurrent lookups of the expired key "alice"
(entry set at 0, TTL 60, now 100), fetch succeeding with payload 9: one
fetch, three identical fresh responses. -/
theorem c3_coalescing_witness :
    (runConcurrent ⟨"alice", none, false⟩
        ((CacheManager.new 60 "./cache").set "alice" ⟨7, false⟩ 0) 3
        (.ok ⟨9, false⟩) (.ok ⟨9, false⟩) 100).1.fetches = 1
    ∧ (runConcurrent ⟨"alice", none, false⟩
        ((CacheManager.new 60 "./cache").set "alice" ⟨7, false⟩ 0) 3
        (.ok ⟨9, false⟩) (.ok ⟨9, false⟩) 100).2
      = List.replicate 3 (HandlerResult.ok ⟨9, false⟩) := by
  have h := c3_coalescing ⟨"alice", none, false⟩
    ((CacheManager.new 60 "./cache").set "alice" ⟨7, false⟩ 0) 3
    (.ok ⟨9, false⟩) (.ok ⟨9, false⟩) 100 ⟨7, false⟩
    (by decide) (by decide) rfl rfl (by decide) rfl
  exact ⟨h.1, h.2⟩

/-- Running totals of a refresh pass: each processed username adds one to
the matching counter, and the non-delay events record every username in
order with its outcome. -/
theorem passGo_spec {α : Type} (allCount : Nat)
    (results : String → Except FetchError α) (now : Nat) :
    ∀ (us : List String) (acc : PassState α),
      (passGo allCount results now us acc).successCount
          = acc.successCount + (us.filter (fun u => fetchOk (results u))).length
      ∧ (passGo allCount results now us acc).failureCount
          = acc.failureCount + (us.filter (fun u => !fetchOk (results u))).length
      ∧ (passGo allCount results now us acc).events.filter
            (fun e => e != PassEvent.delay)
          = acc.events.filter (fun e => e != PassEvent.delay)
            ++ us.map (fun u => if fetchOk (results u) then PassEvent.fetched u
                else PassEvent.failed u) := by
  intro us
  induction us with
  | nil => intro acc; simp [passGo]
  | cons u rest ih =>
    intro acc
    cases hr : results u with
    | ok stats =>
      have hok : fetchOk (results u) = true := by simp [fetchOk, hr]
      simp only [passGo, hr]
      refine ⟨?_, ?_, ?_⟩
      · rw [(ih _).1]
        simp only [List.filter_cons, hok, if_true, List.length_cons]
        omega
      · rw [(ih _).2.1]
        simp [List.filter_cons, hok]
      · rw [(ih _).2.2]
        by_cases hc : allCount > 1 <;>
          simp [hc, List.filter_append, hok]
    | error e =>
      have hok : fetchOk (results u) = false := by simp [fetchOk, hr]
      simp only [passGo, hr]
      refine ⟨?_, ?_, ?_⟩
      · rw [(ih _).1]
        simp [List.filter_cons, hok]
      · rw [(ih _).2.1]
        simp only [List.filter_cons, hok, Bool.not_false, if_true,
          List.length_cons]
        omega
      · rw [(ih _).2.2]
        simp [List.filter_append, hok]

/-- C7: a refresh pass attempts every configured username in order —
one key's failure never aborts the pass — and reports successCount equal
to the number of usernames whose fetch succeeded and failureCount equal
to the number that failed. -/
theorem c7_pass_isolation {α : Type} (targetUsernames : List String)
    (results : String → Except FetchError α) (m : CacheManager α)
    (disk : Disk α) (now : Nat) :
    (fetchAllUserData targetUsernames results m disk now).successCount
        = (targetUsernames.filter (fun u => fetchOk (results u))).length
    ∧ (fetchAllUserData targetUsernames results m disk now).failureCount
        = (targetUsernames.filter (fun u => !fetchOk (results u))).length
    ∧ (fetchAllUserData targetUsernames results m disk now).events.filter
          (fun e => e != PassEvent.delay)
        = targetUsernames.map (fun u => if fetchOk (results u)
            then PassEvent.fetched u else PassEvent.failed u) := by
  have h := passGo_spec targetUsernames.length results now targetUsernames
    { m := m, disk := disk, successCount := 0, failureCount := 0, events := [] }
  unfold fetchAllUserData
  refine ⟨?_, ?_, ?_⟩
  · rw [h.1]; simp
  · rw [h.2.1]; simp
  · rw [h.2.2]; rfl

/-- A pass over a configuration with at most one username emits no delay
event at all. -/
theorem passGo_no_delay {α : Type} (allCount : Nat)
    (results : String → Except FetchError α) (now : Nat)
    (hc : ¬ allCount > 1) :
    ∀ (us : List String) (acc : PassState α),
      PassEvent.delay ∈ (passGo allCount results now us acc).events →
      PassEvent.delay ∈ acc.events := by
  intro us
  induction us with
  | nil => intro acc h; simpa [passGo] using h
  | cons u rest ih =>
    intro acc h
    cases hr : results u with
    | ok stats =>
      simp only [passGo, hr] at h
      have h2 := ih _ h
      simp only [List.mem_append] at h2
      rcases h2 with (h2 | h2) | h2
      · exact h2
      · simp at h2
      · rw [if_neg hc] at h2
        simp at h2
    | error e =>
      simp only [passGo, hr] at h
      have h2 := ih _ h
      simp only [List.mem_append] at h2
      rcases h2 with h2 | h2
      · exact h2
      · simp at h2

/-- C8: the fixed 2 second inter-key delay appears in a refresh pass only
when more than one username is configured; with a single configured
username no delay is inserted. -/
theorem c8_delay_gating {α : Type} (targetUsernames : List String)
    (results : String → Except FetchError α) (m : CacheManager α)
    (disk : Disk α) (now : Nat) :
    (targetUsernames.length = 1 →
      PassEvent.delay ∉
        (fetchAllUserData targetUsernames results m disk now).events)
    ∧ (PassEvent.delay ∈
        (fetchAllUserData targetUsernames results m disk now).events →
      targetUsernames.length > 1) := by
  constructor
  · intro h1 hmem
    unfold fetchAllUserData at hmem
    have := passGo_no_delay targetUsernames.length results now
      (by rw [h1]; decide) targetUsernames _ hmem
    simp at this
  · intro hmem
    by_contra hle
    unfold fetchAllUserData at hmem
    have := passGo_no_delay targetUsernames.length results now hle
      targetUsernames _ hmem
    simp at this

/-- Witness for C8 with the single username "alice": no delay event. -/
theorem c8_delay_gating_witness :
    PassEvent.delay ∉
      (fetchAllUserData ["alice"] (fun _ => Except.ok (0 : Nat))
        (CacheManager.new 60 "./cache") AMap.empty 5).events :=
  (c8_delay_gating ["alice"] (fun _ => Except.ok (0 : Nat))
    (CacheManager.new 60 "./cache") AMap.empty 5).1 rfl

/-- Stopping every task of a list leaves each of them not running in the
registry, whatever its previous state. -/
theorem stopAll_find (l : List Nat) :
    ∀ (reg : CronRegistry) (tid : Nat),
      (reg.find? tid = some false ∨ tid ∈ l) →
      (l.foldl (fun r i => r.insert i false) reg).find? tid = some false := by
  induction l with
  | nil =>
    intro reg tid h
    rcases h with h | h
    · exact h
    · exact absurd h (List.not_mem_nil tid)
  | cons i rest ih =>
    intro reg tid h
    show (rest.foldl _ (reg.insert i false)).find? tid = some false
    apply ih
    by_cases hti : tid = i
    · subst hti
      left
      simp
    · rcases h with h | h
      · left
        rw [AMap.find?_insert_ne reg i tid false (fun hh => hti hh.symm)]
        exact h
      · rcases List.mem_cons.mp h with h' | h'
        · exact absurd h' hti
        · right
          exact h'

/-- C9: stop() is idempotent — a second stop() returns the exact same
state without error — and after any stop() the driver holds no tasks and
every trigger it had registered is no longer running. -/
theorem c9_stop_idempotent (s : DataScheduler) (reg : CronRegistry) :
    (s.stop reg).1.stop (s.stop reg).2 = s.stop reg
    ∧ (s.stop reg).1.tasks = []
    ∧ ∀ tid ∈ s.tasks, (s.stop reg).2.find? tid = some false := by
  refine ⟨rfl, rfl, ?_⟩
  intro tid htid
  show (s.tasks.foldl (fun r i => r.insert i false) reg).find? tid = some false
  exact stopAll_find s.tasks reg tid (Or.inr htid)

/-- Witness for C9: a driver holding tasks 1 and 2, both running. -/
theorem c9_stop_idempotent_witness :
    (DataScheduler.stop ⟨[1, 2]⟩ [(1, true), (2, true)]).1.stop
        (DataScheduler.stop ⟨[1, 2]⟩ [(1, true), (2, true)]).2
      = DataScheduler.stop ⟨[1, 2]⟩ [(1, true), (2, true)]
    ∧ (DataScheduler.stop ⟨[1, 2]⟩ [(1, true), (2, true)]).2.find? 1
        = some false := by
  have h := c9_stop_idempotent ⟨[1, 2]⟩ [(1, true), (2, true)]
  exact ⟨h.1, h.2.2 1 (by decide)⟩

end GithubLangs
